import Mathlib

/-
Shallow embedding of the tinkerator/gpio Go package (Linux GPIO v2 chardev
access plus two in-memory containers, Flag and Vector, sharing the same
exclusive-hold write protocol).

Modelling conventions:
- Go uint64 fields become Nat values kept below 2 to the 64 by construction
  (bit masks are built from bitOf, which reduces the shifted bit modulo
  2 to the 64, matching Go shift-overflow semantics on uint64).
- Go int indices become Int, so negative-index validity checks are faithful.
- Fallible operations return Option Err or Except Err alongside the updated
  state.
- The tracer interface is modelled by a Bool flag (tracer installed or not)
  plus an explicit list of emitted Sample records returned by each operation.
- The goroutine-based exclusive hold (the setCh channel) is modelled by a
  Bool field setChHeld: true exactly while a hold transaction is in flight
  (setCh is non-nil in the Go code). Acquisition models the state observed
  once the spin loop in the source exits; commit is the body of the
  goroutine case that receives a value and then drains the channel.
- Hardware access (ioctl) is modelled by a fake transport that always
  succeeds: each ioctl issued increments ioCalls, and the payloads written
  by setOutsLocked are appended to hwWrites. The input-refresh ioctl takes
  its would-be kernel answer as an explicit Option Nat argument (none models
  an ioctl failure).
-/

namespace Gpio

/-- One sample delivered to a Tracer: Sample(mask, value). -/
structure Sample where
  mask : Nat
  value : Nat
deriving DecidableEq, Repr

/-- Errors surfaced by the package operations (error taxonomy of the spec). -/
inductive Err where
  | invalidIndex
  | notWriteEnabled
  | notEnabled
deriving DecidableEq, Repr

/-! ### Ioctl request packing (source constants and ioFn) -/

/-- ABI magic byte 0xb4. -/
def abi : Nat := 0xb4

/-- Command number for the chip-info query. -/
def cmdGetChipinfo : Nat := 0x01

/-- Command number for the line-info query. -/
def cmdGetLineinfo : Nat := 0x05

/-- Command number for requesting a line group. -/
def cmdGetLine : Nat := 0x07

/-- Command number for the bulk value read. -/
def cmdLineGetValues : Nat := 0x0e

/-- Command number for the bulk value write. -/
def cmdLineSetValues : Nat := 0x0f

/-- Shift distance of the command field. -/
def shiftCmd : Nat := 0

/-- Shift distance of the ABI magic field. -/
def shiftABI : Nat := 8

/-- Shift distance of the payload length field. -/
def shiftLength : Nat := 16

/-- Shift distance of the direction field. -/
def shiftDir : Nat := 30

/-- Packs the ioctl argument parameter, translated from ioFn in the source:
direction 2 for the chip-info command, 3 otherwise, then the four fields
are OR-ed together at their shift distances. -/
def ioFn (cmd : Nat) (length : Nat) : Nat :=
  let dir : Nat := if cmd = cmdGetChipinfo then 2 else 3
  (dir <<< shiftDir) ||| (length <<< shiftLength) ||| (abi <<< shiftABI) |||
    (cmd <<< shiftCmd)

/-! ### Flag (64-bit boolean array with revealed mask, from the source) -/

/-- State of a Flag: 64-bit value word, monotonic revealed mask, the hold
slot (setCh non-nil in the source) and whether a tracer is installed. -/
structure Flag where
  value : Nat
  mask : Nat
  setChHeld : Bool
  tracerOn : Bool
deriving DecidableEq, Repr

/-- NewFlag returns a fresh, all-false flag bank. -/
def NewFlag : Flag := ⟨0, 0, false, false⟩

/-- Flag.valid from the source: rejects index < 0 and index >= 63
(the source writes index >= 63 although its own documentation and
error text say the domain is [0,64)). -/
def flagValid (index : Int) : Option Err :=
  if index < 0 ∨ 63 ≤ index then some Err.invalidIndex else none

/-- Flag.Get: on first reference to a bit, the revealed mask grows and, if
a tracer is installed, one sample is emitted; the returned Bool is the
current value of the bit. -/
def flagGet (f : Flag) (index : Int) : (Flag × List Sample) × Except Err Bool :=
  match flagValid index with
  | some e => ((f, []), Except.error e)
  | none =>
    let bit : Nat := 2 ^ index.toNat
    if f.mask &&& bit = 0 then
      let f1 : Flag := { f with mask := f.mask ||| bit }
      ((f1, if f.tracerOn then [⟨f1.mask, f1.value⟩] else []),
        Except.ok (decide (f.value &&& bit ≠ 0)))
    else
      ((f, []), Except.ok (decide (f.value &&& bit ≠ 0)))

/-- The commit step of Flag.SetHold: the goroutine body that receives a
value from the hold channel, updates mask and value, emits a sample when
either changed, then releases the hold (setCh becomes nil). -/
def flagCommit (f : Flag) (index : Int) (onVal : Bool) : Flag × List Sample :=
  let bit : Nat := 2 ^ index.toNat
  let oldMask := f.mask
  let newMask := f.mask ||| bit
  let old := f.value
  let newValue := if onVal ≠ decide (old &&& bit ≠ 0) then old ^^^ bit else old
  ({ f with mask := newMask, value := newValue, setChHeld := false },
    if f.tracerOn ∧ (old ≠ newValue ∨ oldMask ≠ newMask) then
      [⟨newMask, newValue⟩]
    else [])

/-- Flag.SetHold up to the point the handle is returned: index validity
check, then the spin loop that waits for the hold slot to free and claims
it. The sequential embedding records the claimed slot. -/
def flagSetHold (f : Flag) (index : Int) : Flag × Option Err :=
  match flagValid index with
  | some e => (f, some e)
  | none => ({ f with setChHeld := true }, none)

/-- Flag.Set: SetHold, then send one value and close the channel, which runs
the commit step. The validity error is returned to the caller. -/
def flagSet (f : Flag) (index : Int) (onVal : Bool) :
    (Flag × List Sample) × Option Err :=
  match flagSetHold f index with
  | (f1, some e) => ((f1, []), some e)
  | (f1, none) => (flagCommit f1 index onVal, none)

/-- Flag.SetTracer: installs or clears the tracer; installation immediately
emits one sample of the current mask and value. -/
def flagSetTracer (f : Flag) (onVal : Bool) : Flag × List Sample :=
  ({ f with tracerOn := onVal }, if onVal then [⟨f.mask, f.value⟩] else [])

/-! ### Vector (fixed-length array of signed 64-bit values) -/

/-- State of a Vector: the element list and the hold slot. -/
structure Vector where
  val : List Int
  setChHeld : Bool
deriving DecidableEq, Repr

/-- NewVector allocates count zero values. -/
def NewVector (count : Nat) : Vector := ⟨List.replicate count 0, false⟩

/-- Vector.valid from the source: rejects index < 0 and index >= len(val). -/
def vectorValid (v : Vector) (index : Int) : Option Err :=
  if index < 0 ∨ (v.val.length : Int) ≤ index then some Err.invalidIndex
  else none

/-- Vector.Get: a plain guarded read of the indexed component. -/
def vectorGet (v : Vector) (index : Int) : Except Err Int :=
  match vectorValid v index with
  | some e => Except.error e
  | none => Except.ok (v.val.getD index.toNat 0)

/-- Vector.SetHold up to the point the handle is returned (validity check
plus claiming the hold slot). -/
def vectorSetHold (v : Vector) (index : Int) : Vector × Option Err :=
  match vectorValid v index with
  | some e => (v, some e)
  | none => ({ v with setChHeld := true }, none)

/-- The commit step of Vector.SetHold: the received number is stored and the
hold slot released. -/
def vectorCommit (v : Vector) (index : Int) (num : Int) : Vector :=
  { v with val := v.val.set index.toNat num, setChHeld := false }

/-- Vector.Set, translated faithfully from the source: on a SetHold error
the source returns nil (the err value is dropped), so the error component
here is always none. On success the value is stored via the commit step. -/
def vectorSet (v : Vector) (index : Int) (value : Int) :
    Vector × Option Err :=
  match vectorSetHold v index with
  | (_, some _) => (v, none)
  | (v1, none) => (vectorCommit v1 index value, none)

/-! ### Bank (hardware-backed container over a fake, always-succeeding
transport) -/

/-- State of a Bank. File handles are modelled by open flags; ioCalls counts
every ioctl issued on the fake transport, hwWrites logs the (Bits, Mask)
payloads written by setOutsLocked. -/
structure Bank where
  fOpen : Bool
  lines : Nat
  tracerOn : Bool
  outs : Nat
  outsMask : Nat
  outsFOpen : Bool
  setChHeld : Bool
  ins : Nat
  insMask : Nat
  pollMask : Nat
  insFOpen : Bool
  ioCalls : Nat
  hwWrites : List (Nat × Nat)
deriving DecidableEq, Repr

/-- Translation of the Go expression uint64(1) << g for a uint64 target:
shifting by 64 or more yields zero, hence the reduction modulo 2 to the 64. -/
def bitOf (g : Int) : Nat := 2 ^ g.toNat % 2 ^ 64

/-- Fuel-driven population count; onesCount64 instantiates it with enough
fuel for any 64-bit word. -/
def popCountAux : Nat → Nat → Nat
  | 0, _ => 0
  | fuel + 1, n => if n = 0 then 0 else n % 2 + popCountAux fuel (n / 2)

/-- bits.OnesCount64 on the embedded 64-bit words. -/
def onesCount64 (n : Nat) : Nat := popCountAux 64 n

/-- The unpacking loop of refreshInputLocked: walks the mask bit m over
insMask, consuming one packed answer bit per enabled input line. The Go
loop variable m is a uint64 that the source never wraps for banks below
bit 63; the Nat version terminates once m exceeds insMask. -/
def unpackInsAux : Nat → Nat → Nat → Nat → Nat
  | 0, _, _, _ => 0
  | fuel + 1, insMask, bits, m =>
    if m ≤ insMask then
      if insMask &&& m = 0 then
        unpackInsAux fuel insMask bits (m <<< 1)
      else
        (if bits &&& 1 ≠ 0 then m else 0) |||
          unpackInsAux fuel insMask (bits >>> 1) (m <<< 1)
    else 0

/-- Unpacks a compacted kernel answer against the enabled-input mask. -/
def unpackIns (insMask bits : Nat) : Nat := unpackInsAux 65 insMask bits 1

/-- The packing loop of setOutsLocked: compacts the cached output word
against outsMask into (Bits, Mask) of a LineValues record. The uBit cursor
walks absolute bit positions, bit walks packed positions. -/
def packOutsAux : Nat → Nat → Nat → Nat → Nat → Nat × Nat
  | 0, _, _, _, _ => (0, 0)
  | fuel + 1, m, outs, uBit, bit =>
    if m = 0 then (0, 0)
    else if m % 2 = 0 then
      packOutsAux fuel (m / 2) outs (uBit <<< 1) bit
    else
      let rest := packOutsAux fuel (m / 2) outs (uBit <<< 1) (bit <<< 1)
      ((if uBit &&& outs ≠ 0 then bit else 0) ||| rest.1, bit ||| rest.2)

/-- Packs the output word for the bulk value-write ioctl. -/
def packOuts (outsMask outs : Nat) : Nat × Nat :=
  packOutsAux 65 outsMask outs 1 1

/-- refreshInputLocked: refills the cached input bits via one kernel call.
The guard returns early when the device handle or the input descriptor is
closed. The hw argument is the Bits word the kernel would return for the
poll mask (none models an ioctl failure, which the source swallows). A
sample is emitted only when the combined mask is nonzero, a tracer is
installed, and the unpacked value differs from the cache. -/
def refreshInputLocked (b : Bank) (hw : Option Nat) : Bank × List Sample :=
  if ¬ b.fOpen ∨ ¬ b.insFOpen then (b, [])
  else
    let b1 : Bank := { b with ioCalls := b.ioCalls + 1 }
    match hw with
    | none => (b1, [])
    | some bits =>
      let val := unpackIns b1.insMask bits
      if val = b1.ins then (b1, [])
      else
        let b2 : Bank := { b1 with ins := val }
        (b2,
          if (b2.insMask ||| b2.outsMask) ≠ 0 ∧ b2.tracerOn then
            [⟨b2.insMask ||| b2.outsMask, b2.ins ||| b2.outs⟩]
          else [])

/-- setOutsLocked: when the output descriptor is open, emits one sample
when a tracer is installed (the source samples whenever the tracer is
non-nil, with no nonzero-mask guard here), then writes the packed output
word with one ioctl. -/
def setOutsLocked (b : Bank) : Bank × List Sample :=
  if ¬ b.outsFOpen then (b, [])
  else
    ({ b with
        ioCalls := b.ioCalls + 1
        hwWrites := b.hwWrites ++ [packOuts b.outsMask b.outs] },
      if b.tracerOn then [⟨b.insMask ||| b.outsMask, b.ins ||| b.outs⟩]
      else [])

/-- enableRWLocked: closes both value-exchange descriptors, reopens each
group whose mask is nonzero (one configGPIOs ioctl each on the fake
transport, which always succeeds), re-derives pollMask as a contiguous
low-order mask sized by the enabled-input count, and re-asserts outputs. -/
def enableRWLocked (b : Bank) : Bank × List Sample :=
  let b1 : Bank := { b with insFOpen := false, outsFOpen := false }
  let b2 : Bank :=
    if b1.outsMask ≠ 0 then
      { b1 with outsFOpen := true, ioCalls := b1.ioCalls + 1 }
    else b1
  let b3 : Bank :=
    if b2.insMask ≠ 0 then
      { b2 with insFOpen := true, ioCalls := b2.ioCalls + 1 }
    else b2
  let b4 : Bank := { b3 with pollMask := 2 ^ onesCount64 b3.insMask - 1 }
  setOutsLocked b4

/-- Bank.valid: rejects g outside [0, lines). -/
def bankValid (b : Bank) (g : Int) : Option Err :=
  if g < 0 ∨ (b.lines : Int) ≤ g then some Err.invalidIndex else none

/-- The Bank state OpenBank produces on the fake transport once chip info
has been read: all masks zero, device handle open, poller started. The
ioctl counter starts after the chip-info query. -/
def freshBank (lines : Nat) : Bank :=
  { fOpen := true
    lines := lines
    tracerOn := false
    outs := 0
    outsMask := 0
    outsFOpen := false
    setChHeld := false
    ins := 0
    insMask := 0
    pollMask := 0
    insFOpen := false
    ioCalls := 0
    hwWrites := [] }

/-- Bank.Enable: no-op when the line is already in either mask; otherwise
adds it to the input mask and re-derives both descriptor groups. The Go
parameter named on is unused by the source body and kept here verbatim. -/
def bankEnable (b : Bank) (g : Int) (_onVal : Bool) :
    (Bank × List Sample) × Option Err :=
  match bankValid b g with
  | some e => ((b, []), some e)
  | none =>
    let bit := bitOf g
    if (b.insMask ||| b.outsMask) &&& bit ≠ 0 then ((b, []), none)
    else
      let b1 : Bank := { b with insMask := b.insMask ||| bit }
      let (b2, s) := enableRWLocked b1
      ((b2, s), none)

/-- Bank.Output: no-op when the line is already in the requested mask;
otherwise ORs the bit into the requested mask, XORs it in the other mask,
and re-derives both descriptor groups. -/
def bankOutput (b : Bank) (g : Int) (output : Bool) :
    (Bank × List Sample) × Option Err :=
  match bankValid b g with
  | some e => ((b, []), some e)
  | none =>
    let bit := bitOf g
    if output ∧ b.outsMask &&& bit ≠ 0 then ((b, []), none)
    else if ¬ output ∧ b.insMask &&& bit ≠ 0 then ((b, []), none)
    else
      let b1 : Bank :=
        if output then
          { b with
            outsMask := b.outsMask ||| bit
            insMask := b.insMask ^^^ bit }
        else
          { b with
            insMask := b.insMask ||| bit
            outsMask := b.outsMask ^^^ bit }
      let (b2, s) := enableRWLocked b1
      ((b2, s), none)

/-- Bank.SetHold up to the point the handle is returned: validity check,
write-enabled check, then the hold slot is claimed. -/
def bankSetHold (b : Bank) (g : Int) : Bank × Option Err :=
  match bankValid b g with
  | some e => (b, some e)
  | none =>
    if b.outsMask &&& bitOf g = 0 then (b, some Err.notWriteEnabled)
    else ({ b with setChHeld := true }, none)

/-- The commit step of Bank.SetHold: the goroutine body that receives a
value, releases the hold slot, and either returns unchanged (value equal to
the cached output bit) or flips the cached bit and re-asserts all outputs
to hardware. -/
def bankCommit (b : Bank) (g : Int) (onVal : Bool) : Bank × List Sample :=
  let bit := bitOf g
  let b1 : Bank := { b with setChHeld := false }
  if onVal = decide (b1.outs &&& bit ≠ 0) then (b1, [])
  else
    let b2 : Bank := { b1 with outs := b1.outs ^^^ bit }
    setOutsLocked b2

/-- Bank.Set: SetHold, then one value write and channel close, running the
commit step. -/
def bankSet (b : Bank) (g : Int) (onVal : Bool) :
    (Bank × List Sample) × Option Err :=
  match bankSetHold b g with
  | (b1, some e) => ((b1, []), some e)
  | (b1, none) => (bankCommit b1 g onVal, none)

/-- Bank.Get: cached read for outputs, synchronous refresh for inputs,
LineNotEnabled error when the line is in neither mask. -/
def bankGet (b : Bank) (g : Int) (hw : Option Nat) :
    (Bank × List Sample) × Except Err Bool :=
  match bankValid b g with
  | some e => ((b, []), Except.error e)
  | none =>
    let bit := bitOf g
    if (b.insMask ||| b.outsMask) &&& bit = 0 then
      ((b, []), Except.error Err.notEnabled)
    else if b.outsMask &&& bit ≠ 0 then
      ((b, []), Except.ok (decide (b.outs &&& bit ≠ 0)))
    else
      let (b1, s) := refreshInputLocked b hw
      ((b1, s), Except.ok (decide (b1.ins &&& bit ≠ 0)))

/-- Bank.Close: closes both value-exchange descriptors and the chip device
descriptor. Masks and caches are left as they are. -/
def bankClose (b : Bank) : Bank :=
  { b with outsFOpen := false, insFOpen := false, fOpen := false }

/-- Bank.SetTracer: installs or clears the tracer; installation emits one
sample when the combined mask is nonzero. -/
def bankSetTracer (b : Bank) (onVal : Bool) : Bank × List Sample :=
  ({ b with tracerOn := onVal },
    if (b.insMask ||| b.outsMask) ≠ 0 ∧ onVal then
      [⟨b.insMask ||| b.outsMask, b.ins ||| b.outs⟩]
    else [])

/-- Example Bank used by concrete witnesses: 4 lines, line 0 enabled as
input with cached value one, line 1 enabled as output with cached value
one. -/
def exampleBank : Bank :=
  { freshBank 4 with
    insMask := 1
    outsMask := 2
    ins := 1
    outs := 2
    insFOpen := true
    outsFOpen := true }

/-- States of a Bank reachable from a fresh Bank by any sequence of the
Enable, Output, SetHold, commit, Set and Get operations. -/
inductive ReachableBank : Bank → Prop where
  | fresh (lines : Nat) : ReachableBank (freshBank lines)
  | enable {b : Bank} (g : Int) (onVal : Bool) :
      ReachableBank b → ReachableBank (bankEnable b g onVal).1.1
  | output {b : Bank} (g : Int) (o : Bool) :
      ReachableBank b → ReachableBank (bankOutput b g o).1.1
  | setHold {b : Bank} (g : Int) :
      ReachableBank b → ReachableBank (bankSetHold b g).1
  | commit {b : Bank} (g : Int) (onVal : Bool) :
      ReachableBank b → ReachableBank (bankCommit b g onVal).1
  | set {b : Bank} (g : Int) (onVal : Bool) :
      ReachableBank b → ReachableBank (bankSet b g onVal).1.1
  | get {b : Bank} (g : Int) (hw : Option Nat) :
      ReachableBank b → ReachableBank (bankGet b g hw).1.1

/-- States of a Bank reachable when Output is only ever applied to a line
already present in one of the two masks (an enabled line). -/
inductive ReachableBankEnabledOutputs : Bank → Prop where
  | fresh (lines : Nat) : ReachableBankEnabledOutputs (freshBank lines)
  | enable {b : Bank} (g : Int) (onVal : Bool) :
      ReachableBankEnabledOutputs b →
      ReachableBankEnabledOutputs (bankEnable b g onVal).1.1
  | output {b : Bank} (g : Int) (o : Bool) :
      (b.insMask ||| b.outsMask) &&& bitOf g ≠ 0 →
      ReachableBankEnabledOutputs b →
      ReachableBankEnabledOutputs (bankOutput b g o).1.1
  | setHold {b : Bank} (g : Int) :
      ReachableBankEnabledOutputs b →
      ReachableBankEnabledOutputs (bankSetHold b g).1
  | commit {b : Bank} (g : Int) (onVal : Bool) :
      ReachableBankEnabledOutputs b →
      ReachableBankEnabledOutputs (bankCommit b g onVal).1
  | set {b : Bank} (g : Int) (onVal : Bool) :
      ReachableBankEnabledOutputs b →
      ReachableBankEnabledOutputs (bankSet b g onVal).1.1
  | get {b : Bank} (g : Int) (hw : Option Nat) :
      ReachableBankEnabledOutputs b →
      ReachableBankEnabledOutputs (bankGet b g hw).1.1

/-! ### Helper lemmas on the bit-level operations -/

/-- Conjunction of a word with a single-bit mask is that mask or zero,
depending on the tested bit. -/
theorem land_two_pow (x k : Nat) :
    x &&& 2 ^ k = if x.testBit k then 2 ^ k else 0 := by
  apply Nat.eq_of_testBit_eq
  intro j
  by_cases hk : x.testBit k
  · by_cases hj : k = j
    · subst hj; simp [hk]
    · simp [hj, Nat.testBit_two_pow, hk]
  · by_cases hj : k = j
    · subst hj
      simp [hk, Nat.testBit_two_pow]
    · simp [hj, Nat.testBit_two_pow, hk]

/-- A single-bit conjunction is nonzero exactly when the bit is set. -/
theorem land_two_pow_ne_zero (x k : Nat) :
    x &&& 2 ^ k ≠ 0 ↔ x.testBit k = true := by
  rw [land_two_pow]
  by_cases h : x.testBit k <;>
    simp [h, (Nat.two_pow_pos k).ne']

/-- Characterization of a zero conjunction bit by bit. -/
theorem land_eq_zero_iff (x y : Nat) :
    x &&& y = 0 ↔ ∀ i, x.testBit i = false ∨ y.testBit i = false := by
  constructor
  · intro h i
    have hbit := congrArg (fun n => n.testBit i) h
    simp [Nat.testBit_and] at hbit
    by_cases hx : x.testBit i = true
    · exact Or.inr (hbit hx)
    · exact Or.inl (by simpa using hx)
  · intro h
    apply Nat.eq_of_testBit_eq
    intro i
    rcases h i with h1 | h1 <;> simp [Nat.testBit_and, h1]

/-- The shifted bit expression of the source reduces to a plain power of
two below position 64 and to zero from position 64 upward. -/
theorem bitOf_eq (g : Int) :
    bitOf g = if g.toNat < 64 then 2 ^ g.toNat else 0 := by
  unfold bitOf
  by_cases h : g.toNat < 64
  · rw [if_pos h, Nat.mod_eq_of_lt (Nat.pow_lt_pow_right one_lt_two h)]
  · rw [if_neg h, Nat.mod_eq_zero_of_dvd (pow_dvd_pow 2 (Nat.le_of_not_lt h))]

/-- Setting an absent bit and clearing it again is the identity. -/
theorem lor_xor_cancel {x k : Nat} (h : x.testBit k = false) :
    (x ||| 2 ^ k) ^^^ 2 ^ k = x := by
  apply Nat.eq_of_testBit_eq
  intro j
  by_cases hj : k = j
  · subst hj; simp [h, Nat.testBit_two_pow]
  · simp [Nat.testBit_two_pow, hj]

/-- ORing in a bit already present is the identity. -/
theorem lor_self_bit {x k : Nat} (h : x.testBit k = true) :
    x ||| 2 ^ k = x := by
  apply Nat.eq_of_testBit_eq
  intro j
  by_cases hj : k = j
  · subst hj; simp [h]
  · simp [Nat.testBit_two_pow, hj]

/-! ### Preservation lemmas for the Bank operations -/

/-- setOutsLocked touches only the ioctl log; values, masks and geometry
are preserved. -/
theorem setOutsLocked_masks (b : Bank) :
    (setOutsLocked b).1.insMask = b.insMask ∧
      (setOutsLocked b).1.outsMask = b.outsMask ∧
      (setOutsLocked b).1.outs = b.outs ∧
      (setOutsLocked b).1.ins = b.ins ∧
      (setOutsLocked b).1.lines = b.lines ∧
      (setOutsLocked b).1.setChHeld = b.setChHeld := by
  unfold setOutsLocked
  split <;> simp

/-- enableRWLocked re-derives descriptors and pollMask but preserves the
masks, the cached values and the geometry. -/
theorem enableRWLocked_masks (b : Bank) :
    (enableRWLocked b).1.insMask = b.insMask ∧
      (enableRWLocked b).1.outsMask = b.outsMask ∧
      (enableRWLocked b).1.outs = b.outs ∧
      (enableRWLocked b).1.ins = b.ins ∧
      (enableRWLocked b).1.lines = b.lines ∧
      (enableRWLocked b).1.setChHeld = b.setChHeld := by
  unfold enableRWLocked setOutsLocked
  dsimp only
  split <;> split <;> split <;> simp_all

/-- refreshInputLocked touches only the cached input word and the ioctl
counter. -/
theorem refreshInputLocked_masks (b : Bank) (hw : Option Nat) :
    (refreshInputLocked b hw).1.insMask = b.insMask ∧
      (refreshInputLocked b hw).1.outsMask = b.outsMask ∧
      (refreshInputLocked b hw).1.outs = b.outs ∧
      (refreshInputLocked b hw).1.lines = b.lines ∧
      (refreshInputLocked b hw).1.setChHeld = b.setChHeld := by
  unfold refreshInputLocked
  split
  · simp
  · cases hw
    · simp
    · dsimp only
      split <;> simp

/-- bankSetHold changes at most the hold slot. -/
theorem bankSetHold_masks (b : Bank) (g : Int) :
    (bankSetHold b g).1.insMask = b.insMask ∧
      (bankSetHold b g).1.outsMask = b.outsMask ∧
      (bankSetHold b g).1.outs = b.outs ∧
      (bankSetHold b g).1.ins = b.ins ∧
      (bankSetHold b g).1.lines = b.lines := by
  unfold bankSetHold
  cases bankValid b g <;> dsimp only
  · split <;> simp
  · exact ⟨rfl, rfl, rfl, rfl, rfl⟩

/-- bankCommit changes at most the cached output word, the hold slot and
the ioctl log. -/
theorem bankCommit_masks (b : Bank) (g : Int) (v : Bool) :
    (bankCommit b g v).1.insMask = b.insMask ∧
      (bankCommit b g v).1.outsMask = b.outsMask ∧
      (bankCommit b g v).1.ins = b.ins ∧
      (bankCommit b g v).1.lines = b.lines := by
  unfold bankCommit
  dsimp only
  split
  · simp
  · refine ⟨?_, ?_, ?_, ?_⟩ <;>
      simp [setOutsLocked_masks]

/-- bankSet changes at most the cached output word, the hold slot and the
ioctl log. -/
theorem bankSet_masks (b : Bank) (g : Int) (v : Bool) :
    (bankSet b g v).1.1.insMask = b.insMask ∧
      (bankSet b g v).1.1.outsMask = b.outsMask ∧
      (bankSet b g v).1.1.ins = b.ins ∧
      (bankSet b g v).1.1.lines = b.lines := by
  unfold bankSet
  cases hsh : bankSetHold b g with
  | mk b1 e =>
    have hb1 := bankSetHold_masks b g
    rw [hsh] at hb1
    cases e
    · dsimp only
      have hc := bankCommit_masks b1 g v
      exact ⟨by rw [hc.1, hb1.1], by rw [hc.2.1, hb1.2.1],
        by rw [hc.2.2.1, hb1.2.2.2.1], by rw [hc.2.2.2, hb1.2.2.2.2]⟩
    · dsimp only
      exact ⟨hb1.1, hb1.2.1, hb1.2.2.2.1, hb1.2.2.2.2⟩

/-- bankGet changes at most the cached input word and the ioctl counter. -/
theorem bankGet_masks (b : Bank) (g : Int) (hw : Option Nat) :
    (bankGet b g hw).1.1.insMask = b.insMask ∧
      (bankGet b g hw).1.1.outsMask = b.outsMask ∧
      (bankGet b g hw).1.1.outs = b.outs ∧
      (bankGet b g hw).1.1.lines = b.lines := by
  unfold bankGet
  cases bankValid b g <;> dsimp only
  · split
    · simp
    · split
      · simp
      · have hr := refreshInputLocked_masks b hw
        exact ⟨hr.1, hr.2.1, hr.2.2.1, hr.2.2.2.1⟩
  · simp

/-- bankEnable either leaves the masks alone or ORs one bit into the input
mask; in both cases the output mask is preserved. -/
theorem bankEnable_masks (b : Bank) (g : Int) (v : Bool) :
    ((bankEnable b g v).1.1.insMask = b.insMask ∨
      (bankEnable b g v).1.1.insMask = b.insMask ||| bitOf g) ∧
      (bankEnable b g v).1.1.outsMask = b.outsMask ∧
      (bankEnable b g v).1.1.lines = b.lines := by
  unfold bankEnable
  cases bankValid b g <;> dsimp only
  · split
    · simp
    · have he := enableRWLocked_masks { b with insMask := b.insMask ||| bitOf g }
      exact ⟨Or.inr (by rw [he.1]), by rw [he.2.1], by rw [he.2.2.2.2.1]⟩
  · simp

/-- Deciding that a single-bit conjunction is nonzero is the bit test. -/
theorem decide_land_two_pow (x k : Nat) :
    decide (x &&& 2 ^ k ≠ 0) = x.testBit k := by
  rw [land_two_pow]
  by_cases h : x.testBit k <;> simp [h, (Nat.two_pow_pos k).ne']

/-- A nonzero single-bit conjunction with the left component of an OR is
still nonzero on the OR. -/
theorem lor_land_two_pow_ne_zero {x k : Nat} (y : Nat)
    (h : x &&& 2 ^ k ≠ 0) : (y ||| x) &&& 2 ^ k ≠ 0 := by
  rw [land_two_pow_ne_zero] at h ⊢
  simp [h]

/-- A nonzero single-bit conjunction with the right component of an OR is
still nonzero on the OR. -/
theorem land_lor_two_pow_ne_zero {x k : Nat} (y : Nat)
    (h : x &&& 2 ^ k ≠ 0) : (x ||| y) &&& 2 ^ k ≠ 0 := by
  rw [land_two_pow_ne_zero] at h ⊢
  simp [h]

/-- Reading an output line returns the cached output bit. -/
theorem bankGet_output_bit (b : Bank) (g : Int) (hw : Option Nat)
    (hval : bankValid b g = none) (hout : b.outsMask &&& bitOf g ≠ 0) :
    (bankGet b g hw).2 = Except.ok (b.outs.testBit g.toNat) := by
  have hbit : bitOf g = 2 ^ g.toNat := by
    rw [bitOf_eq]
    split
    · rfl
    · rw [bitOf_eq] at hout
      simp_all
  rw [hbit] at hout
  unfold bankGet
  rw [hval]
  dsimp only
  rw [hbit]
  rw [if_neg (by
    intro hzero
    exact lor_land_two_pow_ne_zero b.insMask hout hzero)]
  rw [if_pos hout]
  dsimp only
  rw [decide_land_two_pow]

/-- Output(g, true) on a line already in the output mask short-circuits:
identical state, no samples, nil error. -/
theorem bankOutput_already_output {b : Bank} {g : Int}
    (hval : bankValid b g = none) (h : b.outsMask &&& bitOf g ≠ 0) :
    bankOutput b g true = ((b, []), none) := by
  unfold bankOutput
  rw [hval]
  dsimp only
  rw [if_pos ⟨rfl, h⟩]

/-- Enable on a line already in either mask short-circuits: identical
state, no samples, nil error. -/
theorem bankEnable_already_enabled {b : Bank} {g : Int} (v : Bool)
    (hval : bankValid b g = none)
    (h : (b.insMask ||| b.outsMask) &&& bitOf g ≠ 0) :
    bankEnable b g v = ((b, []), none) := by
  unfold bankEnable
  rw [hval]
  dsimp only
  rw [if_pos h]

/-- The cached output bit after a commit equals the committed value. -/
theorem bankCommit_outs_testBit (b : Bank) (g : Int) (v : Bool)
    (h64 : bitOf g = 2 ^ g.toNat) :
    (bankCommit b g v).1.outs.testBit g.toNat = v := by
  unfold bankCommit
  dsimp only
  by_cases hc : v = decide (b.outs &&& bitOf g ≠ 0)
  · rw [if_pos hc]
    dsimp only
    rw [hc, h64, decide_land_two_pow]
  · rw [if_neg hc]
    rw [(setOutsLocked_masks _).2.2.1]
    dsimp only
    rw [h64, Nat.testBit_xor, Nat.testBit_two_pow_self]
    rw [h64, decide_land_two_pow] at hc
    cases v <;> cases hb : b.outs.testBit g.toNat <;> simp_all

/-! ### Claim theorems -/

/-- C8: for every command byte cmd and payload length len below the 14-bit
field width, the synthesized ioctl request code equals
(dir <<< 30) ||| (len <<< 16) ||| (0xB4 <<< 8) ||| cmd with dir = 2 for the
chip-info command 0x01 and dir = 3 for every other command, and the packed
code fits in 32 bits. -/
theorem ioFn_packs_request_code (cmd len : Nat) (hc : cmd < 256)
    (hl : len < 2 ^ 14) :
    ioFn cmd len =
      ((if cmd = 0x01 then 2 else 3) <<< 30) ||| (len <<< 16) |||
        (0xB4 <<< 8) ||| cmd ∧
      ioFn cmd len < 2 ^ 32 := by
  constructor
  · simp [ioFn, cmdGetChipinfo, shiftDir, shiftLength, shiftABI, shiftCmd,
      abi]
  · show (_ : Nat) < 2 ^ 32
    simp only [ioFn, cmdGetChipinfo, shiftDir, shiftLength, shiftABI,
      shiftCmd, abi]
    have hdir : (if cmd = 0x01 then 2 else 3) <<< 30 < 2 ^ 32 := by
      rw [Nat.shiftLeft_eq]
      split <;> norm_num
    have hlen : len <<< 16 < 2 ^ 32 := by
      rw [Nat.shiftLeft_eq]
      norm_num at hl ⊢
      omega
    have habi : (0xb4 : Nat) <<< 8 < 2 ^ 32 := by decide
    have hcmd : cmd <<< 0 < 2 ^ 32 := by
      rw [Nat.shiftLeft_zero]; omega
    exact Nat.or_lt_two_pow (Nat.or_lt_two_pow (Nat.or_lt_two_pow hdir hlen)
      habi) hcmd

/-- C8 witness: the packing law evaluated at the bulk value-read command
with a 16-byte payload. -/
theorem ioFn_packs_request_code_witness :
    (0x0e : Nat) < 256 ∧ (16 : Nat) < 2 ^ 14 ∧
      (ioFn 0x0e 16 =
        ((if (0x0e : Nat) = 0x01 then 2 else 3) <<< 30) ||| (16 <<< 16) |||
          (0xB4 <<< 8) ||| 0x0e ∧
        ioFn 0x0e 16 < 2 ^ 32) :=
  ⟨by decide, by decide, ioFn_packs_request_code 0x0e 16 (by decide)
    (by decide)⟩

/-- C4: the Flag validity check rejects index 63 even though the documented
domain is [0,64): 63 is reported invalid while 62 passes, and indices
outside the domain fail as documented. This evaluates the code at the
failing input of the bug. -/
theorem flagValid_rejects_63 :
    flagValid 63 = some Err.invalidIndex ∧ flagValid 62 = none ∧
      flagValid 0 = none ∧ flagValid (-1) = some Err.invalidIndex ∧
      flagValid 64 = some Err.invalidIndex ∧
      (flagGet NewFlag 63).2 = Except.error Err.invalidIndex := by
  refine ⟨by decide, by decide, by decide, by decide, by decide, ?_⟩
  rfl

/-- C5: Vector.Set on an out-of-range index leaves every element unchanged
but returns no error: the source drops the SetHold error and returns nil.
Evaluated at a 3-element vector with indices 3 and -1. -/
theorem vectorSet_swallows_invalid_index :
    vectorSet (NewVector 3) 3 7 = (NewVector 3, none) ∧
      vectorSet (NewVector 3) (-1) 7 = (NewVector 3, none) ∧
      vectorValid (NewVector 3) 3 = some Err.invalidIndex ∧
      vectorValid (NewVector 3) (-1) = some Err.invalidIndex := by
  refine ⟨rfl, rfl, by decide, by decide⟩

/-- C1 counterexample: from a fresh Bank, the single operation
Output(0, true) on line 0 - a line in neither mask - yields a reachable
state whose input and output masks both contain bit 0, so the masks are
not disjoint. -/
theorem bankOutput_nonmember_breaks_disjointness :
    ReachableBank (bankOutput (freshBank 4) 0 true).1.1 ∧
      (bankOutput (freshBank 4) 0 true).1.1.insMask &&&
        (bankOutput (freshBank 4) 0 true).1.1.outsMask = 1 := by
  constructor
  · exact ReachableBank.output 0 true (ReachableBank.fresh 4)
  · rfl

/-- C6 (amended): writing a value equal to the cached one through a
SetHold handle (or via Set) still commits - the hold slot is released -
and the stored value stays unchanged. For Bank this is a complete no-op
apart from the release (no sample, no hardware call); for Flag it emits no
sample when bit i was already revealed in the mask, but when the write
reveals the bit for the first time the mask grows and one sample is
emitted if a tracer is installed, the value word still unchanged. -/
theorem commit_equal_value (b : Bank) (f : Flag) (g i : Int) (v w : Bool)
    (hv : v = decide (b.outs &&& bitOf g ≠ 0))
    (hw : w = decide (f.value &&& 2 ^ i.toNat ≠ 0)) :
    bankCommit b g v = ({ b with setChHeld := false }, []) ∧
      (f.mask.testBit i.toNat = true →
        flagCommit f i w = ({ f with setChHeld := false }, [])) ∧
      (f.mask.testBit i.toNat = false →
        flagCommit f i w =
          (({ f with mask := f.mask ||| 2 ^ i.toNat, setChHeld := false }),
            if f.tracerOn then [⟨f.mask ||| 2 ^ i.toNat, f.value⟩]
            else [])) := by
  refine ⟨?_, ?_, ?_⟩
  · unfold bankCommit
    dsimp only
    rw [if_pos hv]
  · intro hbit
    unfold flagCommit
    dsimp only
    rw [lor_self_bit hbit, if_neg (by simp [hw])]
    simp
  · intro hbit
    have hne : f.mask ≠ f.mask ||| 2 ^ i.toNat := by
      intro heq
      have := congrArg (fun n => n.testBit i.toNat) heq
      simp [hbit] at this
    unfold flagCommit
    dsimp only
    rw [if_neg (by simp [hw])]
    by_cases ht : f.tracerOn <;> simp [ht, hne]

/-- C6 witness: the amended commit law applied to a concrete Bank whose
output bit 1 is already true and a concrete Flag whose bit 2 is revealed
and false. -/
theorem commit_equal_value_witness :
    (true = decide ((2 : Nat) &&& bitOf 1 ≠ 0) ∧
      false = decide ((0 : Nat) &&& 2 ^ (2 : Int).toNat ≠ 0)) ∧
      (bankCommit { freshBank 4 with outs := 2, outsMask := 2, setChHeld := true } 1 true =
        ({ freshBank 4 with outs := 2, outsMask := 2, setChHeld := false },
          []) ∧
        ((4 : Nat).testBit (2 : Int).toNat = true →
          flagCommit ⟨0, 4, true, true⟩ 2 false =
            (⟨0, 4, false, true⟩, [])) ∧
        ((4 : Nat).testBit (2 : Int).toNat = false →
          flagCommit ⟨0, 4, true, true⟩ 2 false =
            (⟨0, 4 ||| 2 ^ (2 : Int).toNat, false, true⟩,
              [⟨4 ||| 2 ^ (2 : Int).toNat, 0⟩]))) :=
  ⟨⟨by decide, by decide⟩,
    commit_equal_value
      { freshBank 4 with outs := 2, outsMask := 2, setChHeld := true }
      ⟨0, 4, true, true⟩ 1 2 true false (by decide) (by decide)⟩

/-- C6 counterexample: on a Flag with a tracer installed and bit 0 not yet
revealed, committing the value false - equal to the cached value of bit 0 -
through an outstanding hold releases the hold and leaves the value word
unchanged, yet emits a tracer sample (the revealed mask grew). -/
theorem flagCommit_equal_value_fresh_bit_samples :
    (flagCommit ⟨0, 0, true, true⟩ 0 false).2 = [⟨1, 0⟩] ∧
      (flagCommit ⟨0, 0, true, true⟩ 0 false).1.value = 0 ∧
      (flagCommit ⟨0, 0, true, true⟩ 0 false).1.setChHeld = false ∧
      decide ((0 : Nat) &&& 2 ^ (0 : Int).toNat ≠ 0) = false := by
  refine ⟨rfl, rfl, rfl, by decide⟩

/-- C7: on a fresh Flag with a tracer installed, the first Get of a valid
index i returns false and emits exactly one sample whose mask newly
contains bit i (the prior mask does not) while the value word is unchanged
(zero); a second Get of the same index returns false again and emits no
further sample. -/
theorem flagGet_first_reveal (i : Int) (h : flagValid i = none) :
    flagGet (flagSetTracer NewFlag true).1 i =
      ((⟨0, 2 ^ i.toNat, false, true⟩, [⟨2 ^ i.toNat, 0⟩]),
        Except.ok false) ∧
      (flagSetTracer NewFlag true).1.mask.testBit i.toNat = false ∧
      ((2 ^ i.toNat : Nat).testBit i.toNat = true) ∧
      flagGet ⟨0, 2 ^ i.toNat, false, true⟩ i =
        ((⟨0, 2 ^ i.toNat, false, true⟩, []), Except.ok false) := by
  refine ⟨?_, by simp [flagSetTracer, NewFlag], Nat.testBit_two_pow_self, ?_⟩
  · unfold flagGet
    rw [h]
    simp [flagSetTracer, NewFlag]
  · unfold flagGet
    rw [h]
    dsimp only
    rw [if_neg (by simp [(Nat.two_pow_pos i.toNat).ne'])]
    simp

/-- C7 witness: the first-reveal law evaluated at index 5. -/
theorem flagGet_first_reveal_witness :
    flagValid 5 = none ∧
      (flagGet (flagSetTracer NewFlag true).1 5 =
        ((⟨0, 2 ^ (5 : Int).toNat, false, true⟩,
          [⟨2 ^ (5 : Int).toNat, 0⟩]), Except.ok false) ∧
        (flagSetTracer NewFlag true).1.mask.testBit (5 : Int).toNat = false ∧
        ((2 ^ (5 : Int).toNat : Nat).testBit (5 : Int).toNat = true) ∧
        flagGet ⟨0, 2 ^ (5 : Int).toNat, false, true⟩ 5 =
          ((⟨0, 2 ^ (5 : Int).toNat, false, true⟩, []), Except.ok false)) :=
  ⟨by decide, flagGet_first_reveal 5 (by decide)⟩

/-- C3: for every valid index, Set followed by Get on the same container
returns the written value with no error: for a Vector with any integer
value, for a Flag with any boolean, and for a Bank on a write-enabled
output line (over the fake transport) with any boolean. -/
theorem set_then_get (v : Vector) (f : Flag) (b : Bank) (iv i g : Int)
    (x : Int) (fv bv : Bool) (hw : Option Nat)
    (hvv : vectorValid v iv = none) (hfv : flagValid i = none)
    (hbv : bankValid b g = none) (hbw : b.outsMask &&& bitOf g ≠ 0) :
    vectorGet (vectorSet v iv x).1 iv = Except.ok x ∧
      (flagGet (flagSet f i fv).1.1 i).2 = Except.ok fv ∧
      (bankGet (bankSet b g bv).1.1 g hw).2 = Except.ok bv := by
  refine ⟨?_, ?_, ?_⟩
  · have hbounds : 0 ≤ iv ∧ iv < (v.val.length : Int) := by
      unfold vectorValid at hvv
      by_cases hc : iv < 0 ∨ (v.val.length : Int) ≤ iv
      · rw [if_pos hc] at hvv; cases hvv
      · push_neg at hc
        exact ⟨by omega, hc.2⟩
    have htn : iv.toNat < v.val.length := by omega
    have h1 : vectorSet v iv x =
        ({ v with val := v.val.set iv.toNat x, setChHeld := false },
          none) := by
      unfold vectorSet vectorSetHold
      rw [hvv]
      rfl
    rw [h1]
    unfold vectorGet
    have h2 : vectorValid
        { v with val := v.val.set iv.toNat x, setChHeld := false } iv =
          none := by
      unfold vectorValid
      rw [if_neg]
      simp only [List.length_set]
      omega
    rw [h2]
    dsimp only
    congr 1
    simp [List.getD_eq_getElem?_getD, List.getElem?_set_self htn]
  · unfold flagSet flagSetHold
    rw [hfv]
    dsimp only
    unfold flagCommit
    dsimp only
    unfold flagGet
    rw [hfv]
    dsimp only
    rw [if_neg (lor_land_two_pow_ne_zero f.mask
      ((land_two_pow_ne_zero _ _).mpr Nat.testBit_two_pow_self))]
    dsimp only
    congr 1
    rw [decide_land_two_pow, decide_land_two_pow]
    by_cases hc : fv = f.value.testBit i.toNat
    · rw [if_neg (not_not_intro hc)]
      exact hc.symm
    · rw [if_pos hc]
      rw [Nat.testBit_xor, Nat.testBit_two_pow_self]
      cases fv <;> cases hb : f.value.testBit i.toNat <;> simp_all
  · have hbit : bitOf g = 2 ^ g.toNat := by
      rw [bitOf_eq]
      split
      · rfl
      · rw [bitOf_eq] at hbw; simp_all
    unfold bankSet bankSetHold
    rw [hbv]
    dsimp only
    rw [if_neg hbw]
    dsimp only
    have hm := bankCommit_masks { b with setChHeld := true } g bv
    have hlines : (bankCommit { b with setChHeld := true } g bv).1.lines =
        b.lines := hm.2.2.2
    have hval2 : bankValid (bankCommit { b with setChHeld := true } g bv).1
        g = none := by
      unfold bankValid at hbv ⊢
      rwa [hlines]
    have hout2 : (bankCommit { b with setChHeld := true } g bv).1.outsMask
        &&& bitOf g ≠ 0 := by
      rw [hm.2.1]
      exact hbw
    rw [bankGet_output_bit _ _ hw hval2 hout2]
    congr 1
    exact bankCommit_outs_testBit { b with setChHeld := true } g bv hbit

/-- C3 witness: the set-then-get law at a 3-element Vector with index 1 and
value 42, a fresh Flag at bit 1 with value true, and a 4-line Bank whose
line 1 is write-enabled, with value true. -/
theorem set_then_get_witness :
    vectorGet (vectorSet (NewVector 3) 1 42).1 1 = Except.ok 42 ∧
      (flagGet (flagSet NewFlag 1 true).1.1 1).2 = Except.ok true ∧
      (bankGet (bankSet
          { freshBank 4 with outsMask := 2, outsFOpen := true } 1
          true).1.1 1 none).2 = Except.ok true :=
  set_then_get (NewVector 3) NewFlag
    { freshBank 4 with outsMask := 2, outsFOpen := true } 1 1 1 42 true
    true none (by decide) (by decide) (by decide) (by decide)

/-- C10: after Close, Get on a line still marked enabled does not fail
with a closed-device error: an output line returns the cached output bit,
and an input line skips the synchronous refresh (the nil device-handle
guard returns early, issuing no ioctl) and returns the last cached input
bit with no error; in both cases the state is returned unchanged and no
sample is emitted. -/
theorem bankGet_after_close (b : Bank) (g : Int) (hw : Option Nat)
    (hval : bankValid b g = none) :
    (b.outsMask &&& bitOf g ≠ 0 →
      bankGet (bankClose b) g hw =
        ((bankClose b, []), Except.ok (b.outs.testBit g.toNat))) ∧
      (b.outsMask &&& bitOf g = 0 → b.insMask &&& bitOf g ≠ 0 →
        bankGet (bankClose b) g hw =
          ((bankClose b, []), Except.ok (b.ins.testBit g.toNat))) := by
  have hval2 : bankValid (bankClose b) g = none := hval
  constructor
  · intro hout
    have hbit : bitOf g = 2 ^ g.toNat := by
      rw [bitOf_eq]
      split
      · rfl
      · rw [bitOf_eq] at hout; simp_all
    rw [hbit] at hout
    have hout2 : (bankClose b).outsMask &&& 2 ^ g.toNat ≠ 0 := hout
    unfold bankGet
    rw [hval2]
    dsimp only
    rw [hbit]
    rw [if_neg (fun hz =>
      lor_land_two_pow_ne_zero (bankClose b).insMask hout2 hz)]
    rw [if_pos hout2]
    rw [decide_land_two_pow]
    rfl
  · intro houtz hins
    have hbit : bitOf g = 2 ^ g.toNat := by
      rw [bitOf_eq]
      split
      · rfl
      · rw [bitOf_eq] at hins; simp_all
    rw [hbit] at houtz hins
    have hins2 : (bankClose b).insMask &&& 2 ^ g.toNat ≠ 0 := hins
    have houtz2 : ¬ ((bankClose b).outsMask &&& 2 ^ g.toNat ≠ 0) :=
      fun hh => hh houtz
    have hrefresh : refreshInputLocked (bankClose b) hw =
        (bankClose b, []) := by
      unfold refreshInputLocked
      rw [if_pos (Or.inl (by simp [bankClose]))]
    unfold bankGet
    rw [hval2]
    dsimp only
    rw [hbit]
    rw [if_neg (fun hz =>
      land_lor_two_pow_ne_zero (bankClose b).outsMask hins2 hz)]
    rw [if_neg houtz2]
    rw [hrefresh]
    dsimp only
    rw [decide_land_two_pow]
    rfl

/-- C10 witness: a 4-line Bank with line 0 enabled as input (cached value
one) and line 1 enabled as output (cached value one), closed, then read on
both lines with an arbitrary pending kernel answer. -/
theorem bankGet_after_close_witness :
    bankValid exampleBank 1 = none ∧ bankValid exampleBank 0 = none ∧
      (bankGet (bankClose exampleBank) 1 (some 0) =
        ((bankClose exampleBank, []),
          Except.ok (exampleBank.outs.testBit (1 : Int).toNat))) ∧
      (bankGet (bankClose exampleBank) 0 (some 0) =
        ((bankClose exampleBank, []),
          Except.ok (exampleBank.ins.testBit (0 : Int).toNat))) :=
  ⟨by decide, by decide,
    (bankGet_after_close exampleBank 1 (some 0) (by decide)).1 (by decide),
    (bankGet_after_close exampleBank 0 (some 0) (by decide)).2 (by decide)
      (by decide)⟩

/-- C9: from a state where line g (below 64) is in neither mask, Enable
puts bit g in the input mask, Output(g, true) then moves it to the output
mask; a repeated Output(g, true) returns nil and is a complete no-op -
the state is returned unchanged bit for bit (same descriptors, same ioctl
count, same hardware write log) with no samples - and a repeated Enable on
the now-enabled line likewise short-circuits with no re-derivation. -/
theorem bankOutput_repeat_noop (b : Bank) (g : Int) (v w : Bool)
    (hval : bankValid b g = none) (h64 : g.toNat < 64)
    (hfree : (b.insMask ||| b.outsMask) &&& bitOf g = 0) :
    (bankEnable b g v).1.1.insMask.testBit g.toNat = true ∧
      (bankOutput (bankEnable b g v).1.1 g true).1.1.outsMask.testBit
        g.toNat = true ∧
      (bankOutput (bankEnable b g v).1.1 g true).1.1.insMask.testBit
        g.toNat = false ∧
      bankOutput (bankOutput (bankEnable b g v).1.1 g true).1.1 g true =
        (((bankOutput (bankEnable b g v).1.1 g true).1.1, []), none) ∧
      bankEnable (bankOutput (bankEnable b g v).1.1 g true).1.1 g w =
        (((bankOutput (bankEnable b g v).1.1 g true).1.1, []), none) := by
  have hbit : bitOf g = 2 ^ g.toNat := by rw [bitOf_eq, if_pos h64]
  rw [hbit] at hfree
  have hlorb : (b.insMask ||| b.outsMask).testBit g.toNat = false := by
    cases hx : (b.insMask ||| b.outsMask).testBit g.toNat
    · rfl
    · exact absurd hfree ((land_two_pow_ne_zero _ _).mpr hx)
  rw [Nat.testBit_or] at hlorb
  have hinsb : b.insMask.testBit g.toNat = false := by
    cases h1 : b.insMask.testBit g.toNat
    · rfl
    · rw [h1] at hlorb
      simp at hlorb
  have houtsb : b.outsMask.testBit g.toNat = false := by
    cases h1 : b.outsMask.testBit g.toNat
    · rfl
    · rw [h1] at hlorb
      simp at hlorb
  have he : (bankEnable b g v).1.1 =
      (enableRWLocked { b with insMask := b.insMask ||| bitOf g }).1 := by
    unfold bankEnable
    rw [hval]
    dsimp only
    rw [if_neg (not_not_intro (by rw [hbit]; exact hfree))]
  have hem := enableRWLocked_masks { b with insMask := b.insMask ||| bitOf g }
  have heins : (bankEnable b g v).1.1.insMask = b.insMask ||| 2 ^ g.toNat := by
    rw [he, hem.1, hbit]
  have heouts : (bankEnable b g v).1.1.outsMask = b.outsMask := by
    rw [he, hem.2.1]
  have helines : (bankEnable b g v).1.1.lines = b.lines := by
    rw [he, hem.2.2.2.2.1]
  have hevalid : bankValid (bankEnable b g v).1.1 g = none := by
    unfold bankValid at hval ⊢
    rwa [helines]
  have heoutz : (bankEnable b g v).1.1.outsMask &&& bitOf g = 0 := by
    rw [heouts, hbit, land_two_pow, houtsb]
    rfl
  have ho : (bankOutput (bankEnable b g v).1.1 g true).1.1 =
      (enableRWLocked { (bankEnable b g v).1.1 with
        outsMask := (bankEnable b g v).1.1.outsMask ||| bitOf g
        insMask := (bankEnable b g v).1.1.insMask ^^^ bitOf g }).1 := by
    unfold bankOutput
    rw [hevalid]
    dsimp only
    rw [if_neg (fun hh => hh.2 heoutz)]
    rw [if_neg (fun hh => hh.1 rfl)]
    rw [if_pos rfl]
  have hom := enableRWLocked_masks { (bankEnable b g v).1.1 with
    outsMask := (bankEnable b g v).1.1.outsMask ||| bitOf g
    insMask := (bankEnable b g v).1.1.insMask ^^^ bitOf g }
  have hoouts : (bankOutput (bankEnable b g v).1.1 g true).1.1.outsMask =
      b.outsMask ||| 2 ^ g.toNat := by
    rw [ho, hom.2.1]
    dsimp only
    rw [heouts, hbit]
  have hoins : (bankOutput (bankEnable b g v).1.1 g true).1.1.insMask =
      b.insMask := by
    rw [ho, hom.1]
    dsimp only
    rw [heins, hbit]
    exact lor_xor_cancel hinsb
  have holines : (bankOutput (bankEnable b g v).1.1 g true).1.1.lines =
      b.lines := by
    rw [ho, hom.2.2.2.2.1]
    dsimp only
    exact helines
  have hovalid : bankValid (bankOutput (bankEnable b g v).1.1 g true).1.1
      g = none := by
    unfold bankValid at hval ⊢
    rwa [holines]
  have hoout : (bankOutput (bankEnable b g v).1.1 g true).1.1.outsMask &&&
      bitOf g ≠ 0 := by
    rw [hoouts, hbit]
    exact lor_land_two_pow_ne_zero b.outsMask
      ((land_two_pow_ne_zero _ _).mpr Nat.testBit_two_pow_self)
  refine ⟨?_, ?_, ?_, ?_, ?_⟩
  · rw [heins, Nat.testBit_or, Nat.testBit_two_pow_self]
    simp
  · rw [hoouts, Nat.testBit_or, Nat.testBit_two_pow_self]
    simp
  · rw [hoins]
    exact hinsb
  · exact bankOutput_already_output hovalid hoout
  · exact bankEnable_already_enabled w hovalid (by
      rw [hoins, hoouts, hbit]
      exact lor_land_two_pow_ne_zero b.insMask
        (lor_land_two_pow_ne_zero b.outsMask
          ((land_two_pow_ne_zero _ _).mpr Nat.testBit_two_pow_self)))

/-- C9 witness: the move-then-no-op law on a fresh 4-line Bank at line 0. -/
theorem bankOutput_repeat_noop_witness :
    bankValid (freshBank 4) 0 = none ∧
      ((bankEnable (freshBank 4) 0 true).1.1.insMask.testBit
          (0 : Int).toNat = true ∧
        (bankOutput (bankEnable (freshBank 4) 0 true).1.1 0
            true).1.1.outsMask.testBit (0 : Int).toNat = true ∧
        (bankOutput (bankEnable (freshBank 4) 0 true).1.1 0
            true).1.1.insMask.testBit (0 : Int).toNat = false ∧
        bankOutput (bankOutput (bankEnable (freshBank 4) 0 true).1.1 0
            true).1.1 0 true =
          (((bankOutput (bankEnable (freshBank 4) 0 true).1.1 0
            true).1.1, []), none) ∧
        bankEnable (bankOutput (bankEnable (freshBank 4) 0 true).1.1 0
            true).1.1 0 false =
          (((bankOutput (bankEnable (freshBank 4) 0 true).1.1 0
            true).1.1, []), none)) :=
  ⟨by decide, bankOutput_repeat_noop (freshBank 4) 0 true false (by decide)
    (by decide) (by decide)⟩

/-- Adding a bit absent from the other mask keeps two masks disjoint. -/
theorem lor_bit_disjoint {ins outs k : Nat}
    (h : ins &&& outs = 0) (hout : outs.testBit k = false) :
    (ins ||| 2 ^ k) &&& outs = 0 := by
  rw [land_eq_zero_iff] at h ⊢
  intro j
  by_cases hj : k = j
  · subst hj
    exact Or.inr hout
  · rcases h j with h1 | h1
    · exact Or.inl (by
        simp [Nat.testBit_or, h1, Nat.testBit_two_pow_of_ne hj])
    · exact Or.inr h1

/-- Moving a bit from the left mask into the right mask keeps the two
masks disjoint. -/
theorem xor_lor_disjoint {ins outs k : Nat}
    (h : ins &&& outs = 0) (hins : ins.testBit k = true) :
    (ins ^^^ 2 ^ k) &&& (outs ||| 2 ^ k) = 0 := by
  rw [land_eq_zero_iff] at h ⊢
  intro j
  by_cases hj : k = j
  · subst hj
    exact Or.inl (by simp [Nat.testBit_xor, hins, Nat.testBit_two_pow_self])
  · rcases h j with h1 | h1
    · exact Or.inl (by
        simp [Nat.testBit_xor, h1, Nat.testBit_two_pow_of_ne hj])
    · exact Or.inr (by
        simp [Nat.testBit_or, h1, Nat.testBit_two_pow_of_ne hj])

/-- Moving a bit from the right mask into the left mask keeps the two
masks disjoint. -/
theorem lor_xor_disjoint {ins outs k : Nat}
    (h : ins &&& outs = 0) (houts : outs.testBit k = true) :
    (ins ||| 2 ^ k) &&& (outs ^^^ 2 ^ k) = 0 := by
  rw [land_eq_zero_iff] at h ⊢
  intro j
  by_cases hj : k = j
  · subst hj
    exact Or.inr (by
      simp [Nat.testBit_xor, houts, Nat.testBit_two_pow_self])
  · rcases h j with h1 | h1
    · exact Or.inl (by
        simp [Nat.testBit_or, h1, Nat.testBit_two_pow_of_ne hj])
    · exact Or.inr (by
        simp [Nat.testBit_xor, h1, Nat.testBit_two_pow_of_ne hj])

/-- Enable preserves disjointness of the two masks for every index,
enabled or not. -/
theorem bankEnable_disjoint (b : Bank) (g : Int) (v : Bool)
    (h : b.insMask &&& b.outsMask = 0) :
    (bankEnable b g v).1.1.insMask &&& (bankEnable b g v).1.1.outsMask
      = 0 := by
  unfold bankEnable
  cases hval : bankValid b g
  · dsimp only
    by_cases hc : (b.insMask ||| b.outsMask) &&& bitOf g ≠ 0
    · rw [if_pos hc]
      exact h
    · rw [if_neg hc]
      push_neg at hc
      dsimp only
      have hem := enableRWLocked_masks
        { b with insMask := b.insMask ||| bitOf g }
      rw [hem.1, hem.2.1]
      dsimp only
      by_cases h64 : g.toNat < 64
      · rw [bitOf_eq, if_pos h64]
        have houtk : b.outsMask.testBit g.toNat = false := by
          rw [bitOf_eq, if_pos h64] at hc
          cases hx : b.outsMask.testBit g.toNat
          · rfl
          · exact absurd hc ((land_two_pow_ne_zero _ _).mpr
              (by rw [Nat.testBit_or, hx]; simp))
        exact lor_bit_disjoint h houtk
      · rw [bitOf_eq, if_neg h64]
        simpa using h
  · dsimp only
    exact h

/-- Output on an enabled line (a line in either mask) preserves
disjointness of the two masks. -/
theorem bankOutput_member_disjoint (b : Bank) (g : Int) (o : Bool)
    (hmem : (b.insMask ||| b.outsMask) &&& bitOf g ≠ 0)
    (h : b.insMask &&& b.outsMask = 0) :
    (bankOutput b g o).1.1.insMask &&& (bankOutput b g o).1.1.outsMask
      = 0 := by
  have h64 : g.toNat < 64 := by
    by_contra hh
    rw [bitOf_eq, if_neg hh] at hmem
    simp at hmem
  have hbit : bitOf g = 2 ^ g.toNat := by rw [bitOf_eq, if_pos h64]
  have hmem2 : (b.insMask ||| b.outsMask).testBit g.toNat = true := by
    rw [hbit] at hmem
    cases hx : (b.insMask ||| b.outsMask).testBit g.toNat
    · exact absurd ((land_two_pow_ne_zero _ _).not.mpr (by
        rw [hx]; simp)) (not_not_intro hmem)
    · rfl
  cases hval : bankValid b g
  · cases o
    · by_cases hc2 : b.insMask &&& bitOf g ≠ 0
      · have hstep : bankOutput b g false = ((b, []), none) := by
          unfold bankOutput
          rw [hval]
          dsimp only
          rw [if_neg (fun hh => Bool.false_ne_true hh.1)]
          rw [if_pos ⟨fun hh => Bool.false_ne_true hh, hc2⟩]
        rw [hstep]
        exact h
      · push_neg at hc2
        have houtk : b.outsMask.testBit g.toNat = true := by
          rw [Nat.testBit_or] at hmem2
          have hik : b.insMask.testBit g.toNat = false := by
            cases hx : b.insMask.testBit g.toNat
            · rfl
            · rw [hbit] at hc2
              exact absurd hc2 ((land_two_pow_ne_zero _ _).mpr hx)
          rw [hik] at hmem2
          simpa using hmem2
        have hstep : (bankOutput b g false).1.1 =
            (enableRWLocked { b with
              insMask := b.insMask ||| bitOf g
              outsMask := b.outsMask ^^^ bitOf g }).1 := by
          unfold bankOutput
          rw [hval]
          dsimp only
          rw [if_neg (fun hh => Bool.false_ne_true hh.1)]
          rw [if_neg (fun hh => hh.2 hc2)]
          rw [if_neg (fun hh => Bool.false_ne_true hh)]
        rw [hstep]
        have hom := enableRWLocked_masks { b with
          insMask := b.insMask ||| bitOf g
          outsMask := b.outsMask ^^^ bitOf g }
        rw [hom.1, hom.2.1]
        dsimp only
        rw [hbit]
        exact lor_xor_disjoint h houtk
    · by_cases hc1 : b.outsMask &&& bitOf g ≠ 0
      · have hstep : bankOutput b g true = ((b, []), none) := by
          unfold bankOutput
          rw [hval]
          dsimp only
          rw [if_pos ⟨rfl, hc1⟩]
        rw [hstep]
        exact h
      · push_neg at hc1
        have hinsk : b.insMask.testBit g.toNat = true := by
          rw [Nat.testBit_or] at hmem2
          have hok : b.outsMask.testBit g.toNat = false := by
            cases hx : b.outsMask.testBit g.toNat
            · rfl
            · rw [hbit] at hc1
              exact absurd hc1 ((land_two_pow_ne_zero _ _).mpr hx)
          rw [hok] at hmem2
          simpa using hmem2
        have hstep : (bankOutput b g true).1.1 =
            (enableRWLocked { b with
              outsMask := b.outsMask ||| bitOf g
              insMask := b.insMask ^^^ bitOf g }).1 := by
          unfold bankOutput
          rw [hval]
          dsimp only
          rw [if_neg (fun hh => hh.2 hc1)]
          rw [if_neg (fun hh => hh.1 rfl)]
          rw [if_pos rfl]
        rw [hstep]
        have hom := enableRWLocked_masks { b with
          outsMask := b.outsMask ||| bitOf g
          insMask := b.insMask ^^^ bitOf g }
        rw [hom.1, hom.2.1]
        dsimp only
        rw [hbit]
        exact xor_lor_disjoint h hinsk
  · have hstep : bankOutput b g o = ((b, []), some (by assumption)) := by
      unfold bankOutput
      rw [hval]
    rw [hstep]
    exact h

/-- The disjointness invariant holds along every run in which Output is
only applied to enabled lines. -/
theorem reachable_disjoint (b : Bank)
    (h : ReachableBankEnabledOutputs b) :
    b.insMask &&& b.outsMask = 0 := by
  induction h with
  | fresh lines => exact show (0 : Nat) &&& 0 = 0 by decide
  | enable g v _ ih => exact bankEnable_disjoint _ g v ih
  | output g o hmem _ ih => exact bankOutput_member_disjoint _ g o hmem ih
  | @setHold b1 g _ ih =>
      have hm := bankSetHold_masks b1 g
      rw [hm.1, hm.2.1]
      exact ih
  | @commit b1 g v _ ih =>
      have hm := bankCommit_masks b1 g v
      rw [hm.1, hm.2.1]
      exact ih
  | @set b1 g v _ ih =>
      have hm := bankSet_masks b1 g v
      rw [hm.1, hm.2.1]
      exact ih
  | @get b1 g hw _ ih =>
      have hm := bankGet_masks b1 g hw
      rw [hm.1, hm.2.1]
      exact ih

/-- C1 (amended): Enable preserves disjointness of the input and output
masks for every index g, member or not; and every state reachable from a
fresh Bank by Enable, Output, SetHold, commit, Set and Get - with Output
applied only to lines already in one of the masks - satisfies
insMask &&& outsMask = 0. (Output applied to a valid line in neither mask
instead places its bit in both masks; see the counterexample.) -/
theorem bank_masks_disjoint :
    (∀ (b : Bank) (g : Int) (v : Bool), b.insMask &&& b.outsMask = 0 →
        (bankEnable b g v).1.1.insMask &&& (bankEnable b g v).1.1.outsMask
          = 0) ∧
      (∀ b : Bank, ReachableBankEnabledOutputs b →
        b.insMask &&& b.outsMask = 0) :=
  ⟨fun b g v h => bankEnable_disjoint b g v h, reachable_disjoint⟩

/-- C1 witness: both parts of the amended invariant exercised on a fresh
4-line Bank and on the reachable state after enabling line 0. -/
theorem bank_masks_disjoint_witness :
    ((bankEnable (freshBank 4) 0 true).1.1.insMask &&&
        (bankEnable (freshBank 4) 0 true).1.1.outsMask = 0) ∧
      (bankEnable (freshBank 4) 0 true).1.1.insMask &&&
        (bankEnable (freshBank 4) 0 true).1.1.outsMask = 0 :=
  ⟨bank_masks_disjoint.1 (freshBank 4) 0 true (by decide),
    bank_masks_disjoint.2 (bankEnable (freshBank 4) 0 true).1.1
      (ReachableBankEnabledOutputs.enable 0 true
        (ReachableBankEnabledOutputs.fresh 4))⟩

end Gpio
